import Mathlib

/-!
A shallow embedding of the CoinMarketCap listing scraper `demo_cmc_parser.py`
and proofs about its behaviour.

Python floats are idealised as exact values of type `PyFloat`: a finite
rational, one of the two infinities, or NaN.  Python strings are Lean
`String`s (digit recognition is modelled on the ASCII digits).  Python
exceptions are modelled with `Except`: every statement that can raise is a
computation in `Except PyErr`, and each `try/except` of the source appears
as an explicit `match` on such a computation.  Network and markup input
(the `requests` response and the parsed BeautifulSoup document) is the
boundary of the model: a `World` supplies the outcome of the primary HTTP
fetch, the behaviour of `json.loads`, and the outcome of the secondary API
request; everything after that boundary is translated from the source.
-/

set_option maxRecDepth 4000

namespace CMCParser

/-- The value a Python float expression can take: a finite rational
(idealising IEEE doubles as exact rationals), an infinity, or NaN. -/
inductive PyFloat where
  | finite (q : ℚ)
  | inf
  | neginf
  | nan
deriving DecidableEq

/-- Python exception kinds relevant to the scraper. -/
inductive PyErr where
  | attributeError
  | typeError
  | valueError
  | keyError
  | indexError
  | netError
  | jsonError
deriving DecidableEq

/-- The whitespace characters stripped by `str.strip()` and by `float()`. -/
def pyIsSpace (c : Char) : Bool :=
  c == ' ' || c == '\t' || c == '\n' || c == '\r' || c == '\x0b' || c == '\x0c'

/-- `text.replace(ch, '')`: remove every occurrence of the character. -/
def removeAll (ch : Char) (cs : List Char) : List Char :=
  cs.filter (fun c => c != ch)

/-- `str.strip()`: drop leading and trailing whitespace. -/
def stripL (cs : List Char) : List Char :=
  ((cs.dropWhile pyIsSpace).reverse.dropWhile pyIsSpace).reverse

/-- Scan a run of decimal digits in which single underscores may appear
between digits, as Python numeric literals allow.  `pend` records that the
previous character was an underscore still waiting for a digit; if no digit
follows, the scan stops before that underscore.  Returns the digits
collected (underscores dropped) and the unconsumed remainder. -/
def digitsLoop : List Char → List Char → Bool → List Char × List Char
  | [], acc, pend => if pend then (acc, ['_']) else (acc, [])
  | c :: rest, acc, pend =>
    if c.isDigit then digitsLoop rest (acc ++ [c]) false
    else if pend then (acc, '_' :: c :: rest)
    else if c = '_' then digitsLoop rest acc true
    else (acc, c :: rest)

/-- A digit group of a Python float literal: requires a leading digit. -/
def parseDigits (cs : List Char) : Option (List Char × List Char) :=
  match cs with
  | c :: _ => if c.isDigit then some (digitsLoop cs [] false) else none
  | [] => none

/-- Numeric value of a list of decimal digit characters. -/
def natOfDigits (ds : List Char) : ℕ :=
  ds.foldl (fun n c => 10 * n + (c.toNat - 48)) 0

/-- The rational denoted by integer digits `ip`, fraction digits `fp` and
decimal exponent `e`. -/
def qVal (ip fp : List Char) (e : ℤ) : ℚ :=
  let m : ℕ := natOfDigits (ip ++ fp)
  let d : ℤ := e - fp.length
  if 0 ≤ d then mkRat (m * 10 ^ d.toNat) 1 else mkRat m (10 ^ (-d).toNat)

/-- A possibly-empty digit group: an input without a leading digit
consumes nothing. -/
def scanDigits (cs : List Char) : List Char × List Char :=
  match parseDigits cs with
  | some dr => dr
  | none => ([], cs)

/-- Exponent digits of a float literal: they must be present and must end
the input. -/
def pdExpDigits (ip fp : List Char) (sgn : ℤ) (cs : List Char) : Option ℚ :=
  match parseDigits cs with
  | some (ds, []) => some (qVal ip fp (sgn * natOfDigits ds))
  | _ => none

/-- Optional sign of a float literal's exponent. -/
def pdExpSign (ip fp : List Char) (cs : List Char) : Option ℚ :=
  match cs with
  | c :: r2 =>
    if c = '+' then pdExpDigits ip fp 1 r2
    else if c = '-' then pdExpDigits ip fp (-1) r2
    else pdExpDigits ip fp 1 cs
  | [] => pdExpDigits ip fp 1 []

/-- After the mantissa of a float literal: there must be at least one
mantissa digit, and the remainder must be empty or a valid exponent. -/
def pdAfterMantissa (ip fp rest : List Char) : Option ℚ :=
  if ip = [] ∧ fp = [] then none
  else
    match rest with
    | [] => some (qVal ip fp 0)
    | c :: rest2 => if c = 'e' ∨ c = 'E' then pdExpSign ip fp rest2 else none

/-- After the integer digits of a float literal: an optional fraction. -/
def pdFrac (ip : List Char) (cs : List Char) : Option ℚ :=
  match cs with
  | c :: rest =>
    if c = '.' then
      match scanDigits rest with
      | (fp, r2) => pdAfterMantissa ip fp r2
    else pdAfterMantissa ip [] cs
  | [] => pdAfterMantissa ip [] []

/-- The numeric (non-inf, non-nan) body of a Python float literal:
`[digits] [. [digits]] [(e|E) [sign] digits]`, with at least one mantissa
digit, consuming the whole input. -/
def parseDecimal (cs : List Char) : Option ℚ :=
  match scanDigits cs with
  | (ip, rest) => pdFrac ip rest

/-- The signed body of `float(s)`: `inf`/`infinity`/`nan`
case-insensitively, otherwise a decimal literal. -/
def pyFloatBody (sgn : ℤ) (cs : List Char) : Option PyFloat :=
  if cs.map Char.toLower = "inf".data ∨ cs.map Char.toLower = "infinity".data then
    some (if sgn = 1 then PyFloat.inf else PyFloat.neginf)
  else if cs.map Char.toLower = "nan".data then some PyFloat.nan
  else
    match parseDecimal cs with
    | some q => some (PyFloat.finite (if sgn = 1 then q else -q))
    | none => none

/-- Optional sign at the front of `float(s)` input. -/
def pyFloatSigned (cs : List Char) : Option PyFloat :=
  match cs with
  | c :: rest =>
    if c = '+' then pyFloatBody 1 rest
    else if c = '-' then pyFloatBody (-1) rest
    else pyFloatBody 1 cs
  | [] => pyFloatBody 1 []

/-- Python's `float(s)` on a character list: strip whitespace, read an
optional sign, accept `inf`/`infinity`/`nan` case-insensitively, otherwise
parse a decimal literal.  `none` models a raised `ValueError`. -/
def pyFloatOfChars (cs : List Char) : Option PyFloat :=
  pyFloatSigned (stripL cs)

/-- `_clean_number`: keep the digit characters of the text and parse them
as an integer; an empty digit string (so `int('')`) raises and the
handler returns 0. -/
def clean_number (text : String) : ℤ :=
  let ds := text.data.filter Char.isDigit
  if ds = [] then 0 else (natOfDigits ds : ℤ)

/-- `_clean_price`: remove every `$` and every `,`, strip whitespace, and
apply `float`; a parse failure is caught and yields 0.0. -/
def clean_price (text : String) : PyFloat :=
  match pyFloatOfChars (stripL (removeAll ',' (removeAll '$' text.data))) with
  | some f => f
  | none => PyFloat.finite 0

/-- `_clean_percent`: remove every `%` and every `,`, strip whitespace,
and apply `float`; a parse failure is caught and yields 0.0. -/
def clean_percent (text : String) : PyFloat :=
  match pyFloatOfChars (stripL (removeAll ',' (removeAll '%' text.data))) with
  | some f => f
  | none => PyFloat.finite 0

/-- A Python value as it occurs in the scraper: JSON-derived data
(`None`, booleans, numbers, strings, lists, dicts) plus BeautifulSoup
`Tag` objects, which leak into a record through the table path's symbol
expression. -/
inductive PyVal where
  | none
  | bool (b : Bool)
  | int (n : ℤ)
  | float (f : PyFloat)
  | str (s : String)
  | list (items : List PyVal)
  | dict (entries : List (String × PyVal))
  | tag (markup : String)

/-- `isinstance(v, dict)`. -/
def PyVal.isDict : PyVal → Bool
  | .dict _ => true
  | _ => false

/-- A coin record: a Python dict whose insertion order is the literal
order of the source, so it is modelled as an ordered association list. -/
def CoinRecord : Type := List (String × PyVal)

/-- `d.get(key, default)`: on a dict, the stored value or the default;
on any other value the attribute access raises `AttributeError`. -/
def pyGet (v : PyVal) (key : String) (dflt : PyVal) : Except PyErr PyVal :=
  match v with
  | .dict entries => .ok ((entries.lookup key).getD dflt)
  | _ => .error .attributeError

/-- `for x in v`: lists yield their items, strings their characters,
dicts their keys; other values raise `TypeError`. -/
def pyIter : PyVal → Except PyErr (List PyVal)
  | .list items => .ok items
  | .str s => .ok (s.data.map fun c => .str (String.mk [c]))
  | .dict entries => .ok (entries.map fun kv => .str kv.1)
  | _ => .error .typeError

/-- `v[0]`: first element of a list or string; empty ones raise
`IndexError`, dicts raise `KeyError` (no integer keys in this data),
other values `TypeError`. -/
def pySub0 : PyVal → Except PyErr PyVal
  | .list (a :: _) => .ok a
  | .list [] => .error .indexError
  | .str s =>
    (match s.data with
     | c :: _ => .ok (.str (String.mk [c]))
     | [] => .error .indexError)
  | .dict _ => .error .keyError
  | _ => .error .typeError

/-- Python list slice `l[a:b]` (step 1): negative indices count from the
end, and `take`/`drop` clamp to the list as Python does. -/
def pySlice {α : Type} (l : List α) (a b : ℤ) : List α :=
  (l.take (if b < 0 then (l.length : ℤ) + b else b).toNat).drop
    (if a < 0 then (l.length : ℤ) + a else a).toNat

/-- `l[:b]`. -/
def pySliceTo {α : Type} (l : List α) (b : ℤ) : List α :=
  pySlice l 0 b

/-- `listings[:limit]` followed by iteration: a slice of a list (or of a
string, yielding characters); slicing anything else raises `TypeError`. -/
def pySliceIter (v : PyVal) (b : ℤ) : Except PyErr (List PyVal) :=
  match v with
  | .list items => .ok (pySliceTo items b)
  | .str s => .ok ((pySliceTo s.data b).map fun c => PyVal.str (String.mk [c]))
  | _ => .error .typeError

/-- A `<p class="coin-item-symbol">` lookup result: a BeautifulSoup tag,
truthy exactly when it has children (`Tag.__len__`). -/
structure Tag where
  markup : String
  children : ℕ

/-- A table cell: its `get_text(strip=True)` and plain `get_text()`
results and the outcome of `find('p', class_='coin-item-symbol')`. -/
structure Cell where
  textStrip : String
  textRaw : String
  symP : Option Tag

/-- The first `<table>` of the page: the cell lists of its `<tr>` rows. -/
structure Table where
  rows : List (List Cell)

/-- A `<script>` element: its `.string` (None when absent) and `str(script)`. -/
structure Script where
  textOpt : Option String
  markup : String

/-- The parsed page: all `<script>` elements and the first `<table>`. -/
structure Soup where
  scripts : List Script
  table : Option Table

/-- The input boundary of the model: the outcome of the primary page
fetch, the behaviour of `json.loads`, and the outcome (per requested
limit) of the secondary API request's `response.json()`. -/
structure World where
  primary : Except PyErr Soup
  jsonParse : String → Except PyErr PyVal
  apiResp : ℤ → Except PyErr PyVal

/-- The exact `<script id="__NEXT_DATA__" ...>` opening tag of the regex. -/
def openTag : String := "<script id=\"__NEXT_DATA__\" type=\"application/json\">"

/-- The closing tag terminating the regex's non-greedy capture. -/
def closeTag : String := "</script>"

/-- Whether `pat` begins `hay`. -/
def startsWithL : List Char → List Char → Bool
  | _, [] => true
  | [], _ :: _ => false
  | c :: cs, p :: ps => c == p && startsWithL cs ps

/-- First index at which `pat` occurs in `hay`, if any. -/
def findSub : List Char → List Char → Option ℕ
  | hay, pat =>
    if startsWithL hay pat then some 0
    else
      match hay with
      | [] => Option.none
      | _ :: rest => (findSub rest pat).map (· + 1)

/-- Python's `in` on strings: substring containment. -/
def strContains (hay pat : String) : Bool :=
  (findSub hay.data pat.data).isSome

/-- `re.search(r'<script id="__NEXT_DATA__" ...>(.*?)</script>', s, re.DOTALL)`:
the capture of the leftmost match — the text between the first occurrence
of the opening tag that is followed by a closing tag and the earliest such
closing tag.  (If the first opening tag has no closing tag after it, no
later one has either, so searching from the first occurrence is exact.) -/
def reSearchNextData (markup : String) : Option String :=
  match findSub markup.data openTag.data with
  | Option.none => Option.none
  | some i =>
    let rest := markup.data.drop (i + openTag.data.length)
    match findSub rest closeTag.data with
    | Option.none => Option.none
    | some j => some (String.mk (rest.take j))

/-- `_parse_coin_data`, inside its `try`: each `.get` on a non-dict
raises, and the dict literal of the source is built field by field. -/
def parse_coin_dataE (item : PyVal) : Except PyErr CoinRecord := do
  let q1 ← pyGet item "quote" (.dict [])
  let quote ← pyGet q1 "USD" (.dict [])
  let rankD ← pyGet item "rank" .none
  let rank ← pyGet item "cmc_rank" rankD
  let name ← pyGet item "name" .none
  let symbol ← pyGet item "symbol" .none
  let price ← pyGet quote "price" .none
  let c1 ← pyGet quote "percent_change_1h" .none
  let c24 ← pyGet quote "percent_change_24h" .none
  let c7d ← pyGet quote "percent_change_7d" .none
  let mcap ← pyGet quote "market_cap" .none
  let vol ← pyGet quote "volume_24h" .none
  let supply ← pyGet item "circulating_supply" .none
  pure [("rank", rank), ("name", name), ("symbol", symbol), ("price", price),
        ("change_1h", c1), ("change_24h", c24), ("change_7d", c7d),
        ("market_cap", mcap), ("volume_24h", vol), ("circulating_supply", supply)]

/-- `_parse_coin_data`: its `except` clause returns `None`. -/
def parse_coin_data (item : PyVal) : Option CoinRecord :=
  match parse_coin_dataE item with
  | .ok r => some r
  | .error _ => Option.none

/-- The truthiness test `if script.string and '__NEXT_DATA__' in str(script)`. -/
def scriptGuard (s : Script) : Bool :=
  (match s.textOpt with
   | some t => !(t == "")
   | Option.none => false) && strContains s.markup "__NEXT_DATA__"

/-- Whether a script element takes the embedded-data branch all the way
to `json.loads`: the truthiness guard passes and the regex finds a match. -/
def scriptMatches (s : Script) : Bool :=
  scriptGuard s && (reSearchNextData s.markup).isSome

/-- The `data.get('props', {}).get('initialState', {})...` chain reaching
the listings array. -/
def listingsPath (data : PyVal) : Except PyErr PyVal := do
  let a ← pyGet data "props" (.dict [])
  let b ← pyGet a "initialState" (.dict [])
  let c ← pyGet b "cryptocurrency" (.dict [])
  let d ← pyGet c "listingLatest" (.dict [])
  pyGet d "data" (.list [])

/-- One iteration of the script loop in `get_top_coins`: the records the
script contributes, or the exception the iteration raises.  Items that are
not dicts are skipped; items whose `_parse_coin_data` returns `None` are
not appended (a ten-field dict is always truthy). -/
def scriptCoins (jp : String → Except PyErr PyVal) (limit : ℤ) (s : Script) :
    Except PyErr (List CoinRecord) :=
  if scriptGuard s then
    match reSearchNextData s.markup with
    | some captured => do
      let data ← jp captured
      let listings ← listingsPath data
      let items ← pySliceIter listings limit
      pure (items.filterMap fun it => if it.isDict then parse_coin_data it else Option.none)
    | Option.none => pure []
  else pure []

/-- The `for script in scripts` loop, accumulating into `coins`. -/
def structuredLoop (jp : String → Except PyErr PyVal) (limit : ℤ) :
    List Script → List CoinRecord → Except PyErr (List CoinRecord)
  | [], coins => .ok coins
  | s :: rest, coins => do
    let more ← scriptCoins jp limit s
    structuredLoop jp limit rest (coins ++ more)

/-- The structured-data path of `get_top_coins`: the script loop started
with the empty `coins` list. -/
def structuredCoins (jp : String → Except PyErr PyVal) (limit : ℤ)
    (scripts : List Script) : Except PyErr (List CoinRecord) :=
  structuredLoop jp limit scripts []

/-- `cells[i]` after the `len(cells) >= 7` guard (the default is never
reached under the guard). -/
def cellAt (cells : List Cell) (i : ℕ) : Cell :=
  cells.getD i { textStrip := "", textRaw := "", symP := Option.none }

/-- Python's `str.split(sep)` for a one-character separator. -/
def splitOnChar (sep : Char) : List Char → List (List Char)
  | [] => [[]]
  | c :: rest =>
    match splitOnChar sep rest with
    | acc :: rs => if c == sep then [] :: acc :: rs else (c :: acc) :: rs
    | [] => [[c]]

/-- `get_text(strip=True).split('\n')[0]`. -/
def splitHead (s : String) : String :=
  String.mk ((splitOnChar '\n' s.data).headD [])

/-- `get_text(strip=True).split('\n')[-1]`. -/
def splitLast (s : String) : String :=
  String.mk ((splitOnChar '\n' s.data).getLastD [])

/-- The symbol expression of `_parse_table`, with Python's precedence
`(find(...) or text-fallback) if '\n' in get_text() else ''`; a found tag
is truthy only when it has children (`Tag.__len__`), and a truthy find
result is kept as the tag object itself — not its text. -/
def symbolExpr (cell : Cell) : PyVal :=
  if strContains cell.textRaw "\n" then
    match cell.symP with
    | some t => if t.children ≠ 0 then .tag t.markup else .str (splitLast cell.textStrip)
    | Option.none => .str (splitLast cell.textStrip)
  else .str ""

/-- One row of `_parse_table`: rows with fewer than 7 cells are skipped,
and the `volume_24h` value needs an eighth cell. -/
def rowRecord (cells : List Cell) : Option CoinRecord :=
  if 7 ≤ cells.length then
    some [("rank", .int (clean_number (cellAt cells 1).textStrip)),
          ("name", .str (splitHead (cellAt cells 2).textStrip)),
          ("symbol", symbolExpr (cellAt cells 2)),
          ("price", .float (clean_price (cellAt cells 3).textStrip)),
          ("change_24h", .float (clean_percent (cellAt cells 4).textStrip)),
          ("change_7d", .float (clean_percent (cellAt cells 5).textStrip)),
          ("market_cap", .float (clean_price (cellAt cells 6).textStrip)),
          ("volume_24h", if 7 < cells.length
                         then .float (clean_price (cellAt cells 7).textStrip)
                         else .none)]
  else Option.none

/-- `_parse_table`: no table yields no coins; otherwise the rows
`table.find_all('tr')[1:limit+1]` are parsed, skipping failing rows. -/
def parse_table (table : Option Table) (limit : ℤ) : List CoinRecord :=
  match table with
  | Option.none => []
  | some t => (pySlice t.rows 1 (limit + 1)).filterMap rowRecord

/-- One item of the `_fetch_via_api` loop: `item.get('quotes', [{}])[0]`
then the dict literal of the source. -/
def apiItemRecord (item : PyVal) : Except PyErr CoinRecord := do
  let quotes ← pyGet item "quotes" (.list [.dict []])
  let quote ← pySub0 quotes
  let rank ← pyGet item "cmcRank" .none
  let name ← pyGet item "name" .none
  let symbol ← pyGet item "symbol" .none
  let price ← pyGet quote "price" .none
  let c1 ← pyGet quote "percentChange1h" .none
  let c24 ← pyGet quote "percentChange24h" .none
  let c7d ← pyGet quote "percentChange7d" .none
  let mcap ← pyGet quote "marketCap" .none
  let vol ← pyGet quote "volume24h" .none
  let supply ← pyGet item "circulatingSupply" .none
  pure [("rank", rank), ("name", name), ("symbol", symbol), ("price", price),
        ("change_1h", c1), ("change_24h", c24), ("change_7d", c7d),
        ("market_cap", mcap), ("volume_24h", vol), ("circulating_supply", supply)]

/-- The item loop of `_fetch_via_api`: `coins` is a mutable list, so an
exception mid-loop leaves the items appended so far; the error therefore
carries the accumulated list, which the `except` clause then returns. -/
def apiLoopX : List PyVal → List CoinRecord →
    Except (PyErr × List CoinRecord) (List CoinRecord)
  | [], acc => .ok acc
  | item :: rest, acc =>
    match apiItemRecord item with
    | .ok r => apiLoopX rest (acc ++ [r])
    | .error e => .error (e, acc)

/-- The `for item in ...` header of `_fetch_via_api`: iterating a
non-iterable raises before any item is processed. -/
def apiIterStage (lv : PyVal) :
    Except (PyErr × List CoinRecord) (List CoinRecord) :=
  match pyIter lv with
  | .error e => .error (e, [])
  | .ok items => apiLoopX items []

/-- `.get('cryptoCurrencyList', [])` of `_fetch_via_api`. -/
def apiListStage (d1 : PyVal) :
    Except (PyErr × List CoinRecord) (List CoinRecord) :=
  match pyGet d1 "cryptoCurrencyList" (.list []) with
  | .error e => .error (e, [])
  | .ok lv => apiIterStage lv

/-- `data.get('data', {})` of `_fetch_via_api`. -/
def apiDataStage (data : PyVal) :
    Except (PyErr × List CoinRecord) (List CoinRecord) :=
  match pyGet data "data" (.dict []) with
  | .error e => .error (e, [])
  | .ok d1 => apiListStage d1

/-- The `try` body of `_fetch_via_api`: request, `response.json()`, the
`data.get('data', {}).get('cryptoCurrencyList', [])` chain, iteration,
and the item loop.  Exceptions before the loop leave `coins == []`. -/
def apiBodyX (w : World) (limit : ℤ) :
    Except (PyErr × List CoinRecord) (List CoinRecord) :=
  match w.apiResp limit with
  | .error e => .error (e, [])
  | .ok data => apiDataStage data

/-- `_fetch_via_api`: the `except` clause prints and falls through to
`return coins`, so the function returns the accumulated list either way. -/
def fetch_via_api (w : World) (limit : ℤ) : List CoinRecord :=
  match apiBodyX w limit with
  | .ok coins => coins
  | .error e => e.2

/-- The `try` body of `get_top_coins`: fetch and parse the page, run the
script loop, and fall back to the table when no coins were found. -/
def primaryE (w : World) (limit : ℤ) : Except PyErr (List CoinRecord) := do
  let soup ← w.primary
  let coins ← structuredCoins w.jsonParse limit soup.scripts
  pure (if coins.isEmpty then parse_table soup.table limit else coins)

/-- `get_top_coins`: the `except` clause replaces the result with
`_fetch_via_api(limit)`. -/
def get_top_coins (w : World) (limit : ℤ) : List CoinRecord :=
  match primaryE w limit with
  | .ok coins => coins
  | .error _ => fetch_via_api w limit

/-- `save_to_json`: the object written to the file — the envelope with the
current timestamp, the record count and the records themselves. -/
def save_to_json (coins : List CoinRecord) (now : String) : PyVal :=
  .dict [("timestamp", .str now), ("count", .int coins.length),
         ("data", .list (coins.map PyVal.dict))]

/-- The rendered CSV file: the header row and one value row per record. -/
structure CsvFile where
  header : List String
  rows : List (List PyVal)

/-- Membership test used by `csv.DictWriter` for its extra-key check. -/
def memStr (k : String) (l : List String) : Bool :=
  l.any fun x => x == k

/-- One `DictWriter.writerow`: a record with a key outside the header
raises `ValueError`; missing keys fall back to the empty rest value. -/
def csvRowE (hdr : List String) (r : CoinRecord) : Except PyErr (List PyVal) :=
  if r.all (fun kv => memStr kv.1 hdr) then
    .ok (hdr.map fun k => (r.lookup k).getD PyVal.none)
  else .error .valueError

/-- `DictWriter.writerows`. -/
def csvRowsE (hdr : List String) : List CoinRecord → Except PyErr (List (List PyVal))
  | [] => .ok []
  | r :: rs => do
    let row ← csvRowE hdr r
    let rest ← csvRowsE hdr rs
    pure (row :: rest)

/-- `save_to_csv` acting on the file at its path: an empty record list
returns before opening the file, leaving the previous state; otherwise the
header comes from the first record's keys and every record is written. -/
def save_to_csv (coins : List CoinRecord) (prev : Option CsvFile) :
    Except PyErr (Option CsvFile) :=
  match coins with
  | [] => .ok prev
  | c :: cs =>
    match csvRowsE (c.map Prod.fst) (c :: cs) with
    | .ok rows => .ok (some { header := c.map Prod.fst, rows := rows })
    | .error e => .error e

/-- A world in which the primary fetch fails and the API supplies one
(empty-dict) item. -/
def singleItemWorld : World :=
  { primary := .error .netError,
    jsonParse := fun _ => .error .jsonError,
    apiResp := fun _ =>
      .ok (.dict [("data", .dict [("cryptoCurrencyList", .list [.dict []])])]) }

/-- A world in which both the primary fetch and the API request fail. -/
def failWorld : World :=
  { primary := .error .netError,
    jsonParse := fun _ => .error .jsonError,
    apiResp := fun _ => .error .netError }

/-- Modelled from the amended claim C3's words, body after the sign: the
IEEE special value a text spells — `inf`/`infinity`/`nan`,
case-insensitively — if any. -/
def specialOfBody (sgn : ℤ) (cs : List Char) : Option PyFloat :=
  if cs.map Char.toLower = "inf".data ∨ cs.map Char.toLower = "infinity".data then
    some (if sgn = 1 then PyFloat.inf else PyFloat.neginf)
  else if cs.map Char.toLower = "nan".data then some PyFloat.nan
  else Option.none

/-- Modelled from the amended claim C3's words: the IEEE special value
(optionally signed) that a text spells after whitespace stripping. -/
def specialOfChars (cs : List Char) : Option PyFloat :=
  match stripL cs with
  | c :: rest =>
    if c = '+' then specialOfBody 1 rest
    else if c = '-' then specialOfBody (-1) rest
    else specialOfBody 1 (c :: rest)
  | [] => specialOfBody 1 []

/-- A script element that does not match the embedded-data pattern. -/
def plainScript : Script :=
  { textOpt := Option.none, markup := "<script>var x = 1;</script>" }

/-- Modelled from claim C6's words: strip a single leading currency
symbol, remove the thousands separators, parse the remainder as floating
point, and return 0.0 on failure. -/
def clean_currency_claim (text : String) : PyFloat :=
  match pyFloatOfChars (removeAll ','
      (match text.data with
       | '$' :: rest => rest
       | l => l)) with
  | some f => f
  | Option.none => PyFloat.finite 0

/-- The amended claim C6's words: remove every occurrence of the currency
symbol and of the comma anywhere in the text, strip whitespace, parse as
floating point, and return 0.0 on failure. -/
def clean_currency_amended (text : String) : PyFloat :=
  match pyFloatOfChars (stripL (removeAll ',' (removeAll '$' text.data))) with
  | some f => f
  | Option.none => PyFloat.finite 0

/-- The key list of a structured-data or secondary-API record. -/
def tenKeys : List String :=
  ["rank", "name", "symbol", "price", "change_1h", "change_24h", "change_7d",
   "market_cap", "volume_24h", "circulating_supply"]

/-- The key list of a table-path record. -/
def eightKeys : List String :=
  ["rank", "name", "symbol", "price", "change_24h", "change_7d",
   "market_cap", "volume_24h"]


/-- The record produced from an item dict with none of the expected keys. -/
def noneRecord : CoinRecord :=
  [("rank", PyVal.none), ("name", PyVal.none), ("symbol", PyVal.none),
   ("price", PyVal.none), ("change_1h", PyVal.none), ("change_24h", PyVal.none),
   ("change_7d", PyVal.none), ("market_cap", PyVal.none),
   ("volume_24h", PyVal.none), ("circulating_supply", PyVal.none)]

/-- A secondary-API response carrying two (empty-dict) listing items,
regardless of the requested limit. -/
def overSupplyWorld : World :=
  { primary := .error .netError,
    jsonParse := fun _ => .error .jsonError,
    apiResp := fun _ =>
      .ok (.dict [("data", .dict [("cryptoCurrencyList",
            .list [.dict [], .dict []])])]) }


/-- The markup of a minimal page whose embedded-data script captures "J". -/
def c4Markup : String := openTag ++ "J" ++ closeTag

def c4Script : Script := { textOpt := some "x", markup := c4Markup }

def c4Items : List PyVal := List.replicate 5 (.dict [])

def c4Data : PyVal :=
  .dict [("props", .dict [("initialState", .dict [("cryptocurrency",
    .dict [("listingLatest", .dict [("data", .list c4Items)])])])])]

def c4World : World :=
  { primary := .ok { scripts := [c4Script], table := Option.none },
    jsonParse := fun _ => .ok c4Data,
    apiResp := fun _ => .error .netError }

/-- A page carrying one non-matching and one matching script element. -/
def c1Soup : Soup :=
  { scripts := [plainScript, c4Script], table := Option.none }

/-- A world whose page holds two script elements, exactly one matching. -/
def c1World : World :=
  { primary := .ok c1Soup,
    jsonParse := fun _ => .ok c4Data,
    apiResp := fun _ => .error .netError }


def mkCell (t : String) : Cell :=
  { textStrip := t, textRaw := t, symP := Option.none }

def nameCell : Cell :=
  { textStrip := "Coin\nCCC", textRaw := "Coin\nCCC", symP := Option.none }

def c5Row (rk : String) : List Cell :=
  [mkCell "x", mkCell rk, nameCell, mkCell "$100", mkCell "+5%",
   mkCell "-5%", mkCell "$1,000", mkCell "$10"]

def c5Table : Table :=
  { rows := [[mkCell "h"], c5Row "1", c5Row "2", c5Row "3", c5Row "4"] }

def c5Soup : Soup := { scripts := [], table := some c5Table }

def c5World : World :=
  { primary := .ok c5Soup,
    jsonParse := fun _ => .error .jsonError,
    apiResp := fun _ => .error .netError }

def c5Record (rk : ℤ) : CoinRecord :=
  [("rank", .int rk), ("name", .str "Coin"), ("symbol", .str "CCC"),
   ("price", .float (.finite (mkRat 100 1))),
   ("change_24h", .float (.finite (mkRat 5 1))),
   ("change_7d", .float (.finite (mkRat (-5) 1))),
   ("market_cap", .float (.finite (mkRat 1000 1))),
   ("volume_24h", .float (.finite (mkRat 10 1)))]


/-! ### Helper lemmas about `Except` computations -/

theorem ok_bind {ε α β : Type} (a : α) (f : α → Except ε β) :
    (Except.ok a >>= f) = f a := rfl

theorem error_bind {ε α β : Type} (e : ε) (f : α → Except ε β) :
    ((Except.error e : Except ε α) >>= f) = Except.error e := rfl

theorem pure_ok {ε α : Type} (a : α) : (pure a : Except ε α) = Except.ok a := rfl

theorem exbind_ok {ε α β : Type} {x : Except ε α} {f : α → Except ε β} {b : β}
    (h : (x >>= f) = Except.ok b) : ∃ a, x = Except.ok a ∧ f a = Except.ok b := by
  cases x with
  | ok a => exact ⟨a, rfl, h⟩
  | error e => rw [error_bind] at h; cases h

/-! ### Digit-free text and the cleaning functions -/

theorem mem_removeAll {c x : Char} {l : List Char} (h : c ∈ removeAll x l) : c ∈ l :=
  (List.mem_filter.mp h).1

theorem mem_stripL {c : Char} {l : List Char} (h : c ∈ stripL l) : c ∈ l := by
  unfold stripL at h
  rw [List.mem_reverse] at h
  have h2 := (List.dropWhile_sublist pyIsSpace).subset h
  rw [List.mem_reverse] at h2
  exact (List.dropWhile_sublist pyIsSpace).subset h2

theorem parseDigits_nodigit {cs : List Char} (h : ∀ c ∈ cs, c.isDigit = false) :
    parseDigits cs = Option.none := by
  cases cs with
  | nil => rfl
  | cons c rest => simp [parseDigits, h c (List.mem_cons_self c rest)]

theorem scanDigits_nodigit {cs : List Char} (h : ∀ c ∈ cs, c.isDigit = false) :
    scanDigits cs = ([], cs) := by
  unfold scanDigits
  rw [parseDigits_nodigit h]

theorem pdAfterMantissa_empty (rest : List Char) :
    pdAfterMantissa [] [] rest = Option.none := by
  unfold pdAfterMantissa
  simp

theorem pdFrac_nodigit {cs : List Char} (h : ∀ c ∈ cs, c.isDigit = false) :
    pdFrac [] cs = Option.none := by
  cases cs with
  | nil => exact pdAfterMantissa_empty []
  | cons c rest =>
    by_cases hc : c = '.'
    · subst hc
      have hr : ∀ d ∈ rest, d.isDigit = false :=
        fun d hd => h d (List.mem_cons_of_mem _ hd)
      simp only [pdFrac, if_pos rfl, scanDigits_nodigit hr]
      exact pdAfterMantissa_empty rest
    · simp only [pdFrac, if_neg hc]
      exact pdAfterMantissa_empty (c :: rest)

theorem parseDecimal_nodigit {cs : List Char} (h : ∀ c ∈ cs, c.isDigit = false) :
    parseDecimal cs = Option.none := by
  unfold parseDecimal
  rw [scanDigits_nodigit h]
  exact pdFrac_nodigit h

theorem pyFloatBody_eq_special (sgn : ℤ) {cs : List Char}
    (h : ∀ c ∈ cs, c.isDigit = false) :
    pyFloatBody sgn cs = specialOfBody sgn cs := by
  unfold pyFloatBody specialOfBody
  split
  · rfl
  · split
    · rfl
    · rw [parseDecimal_nodigit h]

theorem pyFloatOfChars_eq_special {cs : List Char}
    (h : ∀ c ∈ cs, c.isDigit = false) :
    pyFloatOfChars cs = specialOfChars cs := by
  have hs : ∀ c ∈ stripL cs, c.isDigit = false := fun c hc => h c (mem_stripL hc)
  unfold pyFloatOfChars pyFloatSigned specialOfChars
  cases hst : stripL cs with
  | nil => exact pyFloatBody_eq_special 1 (by intro c hc; cases hc)
  | cons c rest =>
    rw [hst] at hs
    have hr : ∀ d ∈ rest, d.isDigit = false :=
      fun d hd => hs d (List.mem_cons_of_mem _ hd)
    show (if c = '+' then pyFloatBody 1 rest
          else if c = '-' then pyFloatBody (-1) rest
          else pyFloatBody 1 (c :: rest)) =
        (if c = '+' then specialOfBody 1 rest
         else if c = '-' then specialOfBody (-1) rest
         else specialOfBody 1 (c :: rest))
    by_cases h1 : c = '+'
    · rw [if_pos h1, if_pos h1]
      exact pyFloatBody_eq_special 1 hr
    · rw [if_neg h1, if_neg h1]
      by_cases h2 : c = '-'
      · rw [if_pos h2, if_pos h2]
        exact pyFloatBody_eq_special (-1) hr
      · rw [if_neg h2, if_neg h2]
        exact pyFloatBody_eq_special 1 hs

/-- Claim C3, counterexample: the text "inf" contains no digit character,
yet `_clean_price` returns positive infinity, not the documented 0.0
default (and `_clean_percent` likewise returns NaN on "nan"). -/
theorem clean_zero_default_counterexample :
    "inf".data.all (fun c => !c.isDigit) = true ∧
    clean_price "inf" = PyFloat.inf ∧
    clean_percent "nan" = PyFloat.nan ∧
    PyFloat.inf ≠ PyFloat.finite 0 ∧ PyFloat.nan ≠ PyFloat.finite 0 :=
  ⟨by decide, by decide, by decide, by decide, by decide⟩

/-- Claim C3 (amended): the three cleaning functions are total; on text
with no digit characters `_clean_number` returns 0, and `_clean_price`
and `_clean_percent` return exactly the 0.0 default unless the
symbol-stripped text spells an IEEE special value (`inf`, `infinity` or
`nan`, optionally signed, case-insensitively), in which case exactly that
special value is returned — `specialOfChars` is the claim's description
of which special value, if any, a text spells. -/
theorem clean_functions_zero_default (t : String)
    (h : t.data.all (fun c => !c.isDigit) = true) :
    clean_number t = 0 ∧
    clean_price t =
      (match specialOfChars (stripL (removeAll ',' (removeAll '$' t.data))) with
       | some f => f
       | Option.none => PyFloat.finite 0) ∧
    clean_percent t =
      (match specialOfChars (stripL (removeAll ',' (removeAll '%' t.data))) with
       | some f => f
       | Option.none => PyFloat.finite 0) := by
  have hb : ∀ c ∈ t.data, c.isDigit = false := by
    intro c hc
    have := List.all_eq_true.mp h c hc
    simpa using this
  refine ⟨?_, ?_, ?_⟩
  · have : t.data.filter Char.isDigit = [] :=
      List.filter_eq_nil_iff.mpr (fun c hc => by simp [hb c hc])
    simp [clean_number, this]
  · unfold clean_price
    rw [pyFloatOfChars_eq_special
      (fun c hc => hb c (mem_removeAll (mem_removeAll (mem_stripL hc))))]
  · unfold clean_percent
    rw [pyFloatOfChars_eq_special
      (fun c hc => hb c (mem_removeAll (mem_removeAll (mem_stripL hc))))]

theorem clean_functions_zero_default_witness :
    (clean_number "N/A" = 0 ∧
     clean_price "N/A" =
       (match specialOfChars (stripL (removeAll ',' (removeAll '$' "N/A".data))) with
        | some f => f
        | Option.none => PyFloat.finite 0) ∧
     clean_percent "N/A" =
       (match specialOfChars (stripL (removeAll ',' (removeAll '%' "N/A".data))) with
        | some f => f
        | Option.none => PyFloat.finite 0)) ∧
    clean_price "N/A" = PyFloat.finite 0 ∧
    clean_price "-inf" = PyFloat.neginf ∧
    specialOfChars "-inf".data = some PyFloat.neginf :=
  ⟨clean_functions_zero_default "N/A" (by decide), by decide, by decide, by decide⟩

/-- Claim C6, counterexample: on "1$" the code removes the non-leading
dollar sign and parses 1.0, while the behaviour the claim describes
(strip only a leading symbol) fails the parse and yields 0.0. -/
theorem clean_currency_claim_counterexample :
    clean_price "1$" = PyFloat.finite (mkRat 1 1) ∧
    clean_currency_claim "1$" = PyFloat.finite 0 ∧
    clean_price "1$" ≠ clean_currency_claim "1$" :=
  ⟨by decide, by decide, by decide⟩

/-- Claim C6 (amended): `_clean_price` removes every occurrence of the
currency symbol and of the comma (not only a leading symbol), strips
whitespace, parses the remainder as floating point and returns 0.0 on
failure; in particular it maps "$1,234.56" to 1234.56, and "1$2,3"
(symbols inside the number) to 123.0. -/
theorem clean_currency_amended_correct :
    (∀ t : String, clean_price t = clean_currency_amended t) ∧
    clean_price "$1,234.56" = PyFloat.finite (mkRat 123456 100) ∧
    clean_price "1$2,3" = PyFloat.finite (mkRat 123 1) :=
  ⟨fun _ => rfl, by decide, by decide⟩

/-- Claim C7: `_clean_number` keeps exactly the digit characters of the
text and parses them as an integer, returning 0 whenever no digits are
present; in particular "Rank #7" cleans to 7. -/
theorem clean_integer_contract :
    (∀ t : String, t.data.all (fun c => !c.isDigit) = true → clean_number t = 0) ∧
    clean_number "Rank #7" = 7 ∧
    clean_number "a1b2c3" = 123 := by
  refine ⟨?_, by decide, by decide⟩
  intro t h
  have : t.data.filter Char.isDigit = [] :=
    List.filter_eq_nil_iff.mpr (fun c hc => by
      have := List.all_eq_true.mp h c hc
      simpa using this)
  simp [clean_number, this]

theorem clean_integer_contract_witness : clean_number "no digits" = 0 :=
  clean_integer_contract.1 "no digits" (by decide)

/-- Claim C8: the object `save_to_json` writes is an envelope whose
`count` field is the number of records, whose `data` field is exactly the
record list, and whose `timestamp` field is the serialisation time. -/
theorem save_to_json_envelope (coins : List CoinRecord) (now : String) :
    pyGet (save_to_json coins now) "count" PyVal.none =
      Except.ok (PyVal.int coins.length) ∧
    pyGet (save_to_json coins now) "data" PyVal.none =
      Except.ok (PyVal.list (coins.map PyVal.dict)) ∧
    pyGet (save_to_json coins now) "timestamp" PyVal.none =
      Except.ok (PyVal.str now) :=
  ⟨rfl, rfl, rfl⟩

/-- Claim C9: `save_to_csv` on an empty record list returns before
touching the file: it raises nothing and leaves the previous file state
unchanged. -/
theorem save_to_csv_empty_noop (prev : Option CsvFile) :
    save_to_csv [] prev = Except.ok prev := rfl

/-! ### Claim C2: failures are swallowed -/

/-- Claim C2: `get_top_coins` never raises, for every limit and every
outcome of the primary fetch, the parses and the secondary-API call: a
primary-path exception is caught and replaced by `_fetch_via_api`; an
exception inside `_fetch_via_api` is caught and leaves the records
accumulated before it; an API request failure leaves the empty list; and
when both paths fail the result degrades to the empty list. -/
theorem get_top_coins_never_raises (w : World) (limit : ℤ) :
    (∀ cs, primaryE w limit = Except.ok cs → get_top_coins w limit = cs) ∧
    (∀ e, primaryE w limit = Except.error e →
      get_top_coins w limit = fetch_via_api w limit) ∧
    (∀ e acc, apiBodyX w limit = Except.error (e, acc) →
      fetch_via_api w limit = acc) ∧
    (∀ e, w.apiResp limit = Except.error e → fetch_via_api w limit = []) ∧
    (∀ e e2, w.primary = Except.error e → w.apiResp limit = Except.error e2 →
      get_top_coins w limit = []) := by
  have h1 : ∀ cs, primaryE w limit = Except.ok cs → get_top_coins w limit = cs := by
    intro cs h
    unfold get_top_coins
    rw [h]
  have h2 : ∀ e, primaryE w limit = Except.error e →
      get_top_coins w limit = fetch_via_api w limit := by
    intro e h
    unfold get_top_coins
    rw [h]
  have h3 : ∀ e acc, apiBodyX w limit = Except.error (e, acc) →
      fetch_via_api w limit = acc := by
    intro e acc h
    unfold fetch_via_api
    rw [h]
  have h4 : ∀ e, w.apiResp limit = Except.error e → fetch_via_api w limit = [] := by
    intro e h
    unfold fetch_via_api apiBodyX
    rw [h]
  refine ⟨h1, h2, h3, h4, ?_⟩
  intro e e2 hp ha
  have hpe : primaryE w limit = Except.error e := by
    unfold primaryE
    rw [hp, error_bind]
  rw [h2 e hpe, h4 e2 ha]

theorem get_top_coins_never_raises_witness : get_top_coins failWorld 5 = [] :=
  (get_top_coins_never_raises failWorld 5).2.2.2.2 PyErr.netError PyErr.netError rfl rfl

/-! ### Claim C1: the limit bound and its API-path violation -/

theorem pySliceTo_length_le {α : Type} (l : List α) {b : ℤ} (hb : 0 ≤ b) :
    (pySliceTo l b).length ≤ b.toNat := by
  unfold pySliceTo pySlice
  rw [if_neg (by omega : ¬(b < 0)), if_neg (by omega : ¬((0:ℤ) < 0))]
  simp only [Int.toNat_zero, List.drop_zero]
  exact List.length_take_le _ _

theorem pySliceIter_length_le {v : PyVal} {limit : ℤ} {items : List PyVal}
    (hb : 0 ≤ limit) (hok : pySliceIter v limit = Except.ok items) :
    items.length ≤ limit.toNat := by
  cases v with
  | list l =>
    rw [← Except.ok.inj hok]
    exact pySliceTo_length_le l hb
  | str t =>
    rw [← Except.ok.inj hok]
    rw [List.length_map]
    exact pySliceTo_length_le t.data hb
  | none => exact nomatch hok
  | bool b => exact nomatch hok
  | int n => exact nomatch hok
  | float f => exact nomatch hok
  | dict entries => exact nomatch hok
  | tag m => exact nomatch hok

theorem scriptCoins_length_le (jp : String → Except PyErr PyVal) {limit : ℤ}
    (hb : 0 ≤ limit) (s : Script) {cs : List CoinRecord}
    (hok : scriptCoins jp limit s = Except.ok cs) : cs.length ≤ limit.toNat := by
  unfold scriptCoins at hok
  by_cases hg : scriptGuard s
  · rw [if_pos hg] at hok
    cases hm : reSearchNextData s.markup with
    | none =>
      rw [hm] at hok
      cases hok
      exact Nat.zero_le _
    | some captured =>
      rw [hm] at hok
      obtain ⟨data, hd, hok⟩ := exbind_ok hok
      obtain ⟨listings, hl, hok⟩ := exbind_ok hok
      obtain ⟨items, hi, hok⟩ := exbind_ok hok
      cases hok
      calc (items.filterMap fun it =>
              if it.isDict then parse_coin_data it else Option.none).length
          ≤ items.length := List.length_filterMap_le _ _
        _ ≤ limit.toNat := pySliceIter_length_le hb hi
  · rw [if_neg hg] at hok
    cases hok
    exact Nat.zero_le _

theorem parse_table_length_le (t : Option Table) {limit : ℤ} (h : 0 < limit) :
    (parse_table t limit).length ≤ limit.toNat := by
  cases t with
  | none => exact Nat.zero_le _
  | some tb =>
    unfold parse_table pySlice
    calc ((((tb.rows.take _).drop _).filterMap rowRecord)).length
        ≤ ((tb.rows.take (if limit + 1 < 0 then (tb.rows.length : ℤ) + (limit + 1)
             else limit + 1).toNat).drop
             (if (1:ℤ) < 0 then (tb.rows.length : ℤ) + 1 else 1).toNat).length :=
          List.length_filterMap_le _ _
      _ ≤ limit.toNat := by
          rw [if_neg (by omega : ¬(limit + 1 < 0)), if_neg (by omega : ¬((1:ℤ) < 0))]
          rw [List.length_drop]
          have := List.length_take_le (limit + 1).toNat tb.rows
          omega

/-- Claim C1, counterexample: with limit 1 and a secondary-API response
supplying two items, `get_top_coins` returns two records — the API path
passes `limit` only as a request parameter and never truncates. -/
theorem get_top_coins_limit_counterexample :
    (0 : ℤ) < 1 ∧ get_top_coins overSupplyWorld 1 = [noneRecord, noneRecord] ∧
    ¬((get_top_coins overSupplyWorld 1).length ≤ (1 : ℤ).toNat) := by
  refine ⟨by decide, rfl, ?_⟩
  intro hle
  have h2 : (get_top_coins overSupplyWorld 1).length = 2 := rfl
  omega

theorem scriptCoins_eq_none (jp : String → Except PyErr PyVal) (limit : ℤ)
    (s : Script) (hg : scriptGuard s = true)
    (hre : reSearchNextData s.markup = Option.none) :
    scriptCoins jp limit s = Except.ok [] := by
  unfold scriptCoins
  rw [hg, if_pos rfl, hre]
  rfl

theorem scriptCoins_eq_noguard (jp : String → Except PyErr PyVal) (limit : ℤ)
    (s : Script) (hg : ¬(scriptGuard s = true)) :
    scriptCoins jp limit s = Except.ok [] := by
  unfold scriptCoins
  rw [if_neg hg]
  rfl

theorem scriptCoins_not_matches (jp : String → Except PyErr PyVal) (limit : ℤ)
    {s : Script} (h : scriptMatches s = false) :
    scriptCoins jp limit s = Except.ok [] := by
  by_cases hg : scriptGuard s = true
  · cases hm : reSearchNextData s.markup with
    | none => exact scriptCoins_eq_none jp limit s hg hm
    | some captured =>
      unfold scriptMatches at h
      rw [hg, hm] at h
      simp at h
  · exact scriptCoins_eq_noguard jp limit s hg

theorem structuredLoop_length_le (jp : String → Except PyErr PyVal) {limit : ℤ}
    (hb : 0 ≤ limit) :
    ∀ (scripts : List Script) (acc cs : List CoinRecord),
      structuredLoop jp limit scripts acc = Except.ok cs →
      cs.length ≤ acc.length + limit.toNat * (scripts.filter scriptMatches).length := by
  intro scripts
  induction scripts with
  | nil =>
    intro acc cs h
    unfold structuredLoop at h
    cases h
    simp
  | cons s rest ih =>
    intro acc cs h
    unfold structuredLoop at h
    obtain ⟨new, hnew, h⟩ := exbind_ok h
    have hrec := ih (acc ++ new) cs h
    rw [List.length_append] at hrec
    cases hm : scriptMatches s with
    | true =>
      have hsb : new.length ≤ limit.toNat := scriptCoins_length_le jp hb s hnew
      rw [List.filter_cons_of_pos hm, List.length_cons]
      calc cs.length
          ≤ acc.length + new.length + limit.toNat * (rest.filter scriptMatches).length :=
            hrec
        _ ≤ acc.length + limit.toNat * ((rest.filter scriptMatches).length + 1) := by
            rw [Nat.mul_add, Nat.mul_one]
            omega
    | false =>
      rw [scriptCoins_not_matches jp limit hm] at hnew
      cases hnew
      rw [List.filter_cons_of_neg (by simp [hm])]
      simpa using hrec

/-- Claim C1 (amended): with a positive limit the primary paths truncate —
whenever at most one of the page's script elements matches the
embedded-data pattern (guard plus regex), a successful primary result
(structured or table) has at most limit records, and the table path alone
always parses at most limit rows; the secondary-API path appends one
record per item the response supplies, without truncating to limit. -/
theorem get_top_coins_limit_amended :
    (∀ (w : World) (limit : ℤ) (soup : Soup) (cs : List CoinRecord),
      0 < limit → w.primary = Except.ok soup →
      (soup.scripts.filter scriptMatches).length ≤ 1 →
      primaryE w limit = Except.ok cs →
      get_top_coins w limit = cs ∧ cs.length ≤ limit.toNat) ∧
    (∀ (t : Option Table) (limit : ℤ), 0 < limit →
      (parse_table t limit).length ≤ limit.toNat) := by
  constructor
  · intro w limit soup cs hpos hw hmatch hok
    have hres : get_top_coins w limit = cs := by
      unfold get_top_coins
      rw [hok]
    refine ⟨hres, ?_⟩
    unfold primaryE at hok
    rw [hw, ok_bind] at hok
    obtain ⟨scs, hscs, hok⟩ := exbind_ok hok
    rw [pure_ok] at hok
    cases hok
    by_cases he : scs.isEmpty = true
    · rw [if_pos he]
      exact parse_table_length_le soup.table hpos
    · rw [if_neg he]
      have hlen := structuredLoop_length_le w.jsonParse (by omega) soup.scripts [] scs hscs
      have hmul : limit.toNat * (soup.scripts.filter scriptMatches).length ≤ limit.toNat := by
        rcases Nat.le_one_iff_eq_zero_or_eq_one.mp hmatch with h0 | h1
        · rw [h0]
          simp
        · rw [h1]
          simp
      simpa using Nat.le_trans hlen (by simpa using hmul)
  · intro t limit h
    exact parse_table_length_le t h

theorem get_top_coins_limit_amended_witness :
    (get_top_coins c1World 3 = List.replicate 3 noneRecord ∧
      (List.replicate 3 noneRecord : List CoinRecord).length ≤ (3:ℤ).toNat) ∧
    (parse_table (some c5Table) 10).length ≤ (10:ℤ).toNat :=
  ⟨get_top_coins_limit_amended.1 c1World 3 c1Soup (List.replicate 3 noneRecord)
      (by decide) rfl (by decide) rfl,
   get_top_coins_limit_amended.2 (some c5Table) 10 (by decide)⟩

/-! ### Claims C4 and C5: the fallback chain -/

theorem pySliceTo_nonneg {α : Type} (l : List α) {b : ℤ} (hb : 0 ≤ b) :
    pySliceTo l b = l.take b.toNat := by
  unfold pySliceTo pySlice
  rw [if_neg (by omega : ¬(b < 0)), if_neg (by omega : ¬((0:ℤ) < 0))]
  simp

theorem filterMap_parse {items : List PyVal} {recs : List CoinRecord}
    (hdict : items.all PyVal.isDict = true)
    (hparse : items.map parse_coin_data = recs.map some) :
    (items.filterMap fun it => if it.isDict then parse_coin_data it else Option.none)
      = recs := by
  induction items generalizing recs with
  | nil =>
    cases recs with
    | nil => rfl
    | cons r rs => cases hparse
  | cons i is ih =>
    cases recs with
    | nil => cases hparse
    | cons r rs =>
      rw [List.map_cons, List.map_cons] at hparse
      injection hparse with h1 h2
      rw [List.all_cons] at hdict
      have hd := (Bool.and_eq_true _ _).mp hdict
      rw [List.filterMap_cons, if_pos hd.1, h1]
      rw [ih hd.2 h2]

theorem all_take {l : List PyVal} (n : ℕ) (h : l.all PyVal.isDict = true) :
    (l.take n).all PyVal.isDict = true := by
  rw [List.all_eq_true] at h ⊢
  exact fun x hx => h x (List.take_subset n l hx)

theorem scriptCoins_eq_of (jp : String → Except PyErr PyVal) (limit : ℤ)
    (s : Script) (captured : String) (hg : scriptGuard s = true)
    (hre : reSearchNextData s.markup = some captured) :
    scriptCoins jp limit s = (do
      let data ← jp captured
      let listings ← listingsPath data
      let items ← pySliceIter listings limit
      pure (items.filterMap fun it =>
        if it.isDict then parse_coin_data it else Option.none)) := by
  unfold scriptCoins
  rw [hg, if_pos rfl, hre]

/-- Claim C4: when the page holds a single script matching the
embedded-data pattern, its JSON parses, the nested-key path reaches an
array of 5 well-formed listing items (dicts that `_parse_coin_data`
accepts), and limit is 3, `get_top_coins` returns exactly the first 3
records in the payload's order. -/
theorem get_top_coins_structured_five_limit_three
    (w : World) (soup : Soup) (s : Script) (captured : String) (data : PyVal)
    (items : List PyVal) (recs : List CoinRecord)
    (hw : w.primary = Except.ok soup)
    (hs : soup.scripts = [s])
    (hg : scriptGuard s = true)
    (hre : reSearchNextData s.markup = some captured)
    (hjp : w.jsonParse captured = Except.ok data)
    (hlp : listingsPath data = Except.ok (PyVal.list items))
    (hlen : items.length = 5)
    (hdict : items.all PyVal.isDict = true)
    (hparse : items.map parse_coin_data = recs.map some) :
    get_top_coins w 3 = recs.take 3 ∧ (recs.take 3).length = 3 := by
  have hrlen : recs.length = 5 := by
    have := congrArg List.length hparse
    simpa [hlen] using this.symm
  have htk3 : (recs.take 3).length = 3 := by
    rw [List.length_take, hrlen]
    omega
  have hsc : scriptCoins w.jsonParse 3 s = Except.ok (recs.take 3) := by
    rw [scriptCoins_eq_of w.jsonParse 3 s captured hg hre]
    rw [hjp, ok_bind, hlp, ok_bind]
    have hsl : pySliceIter (PyVal.list items) 3 = Except.ok (items.take 3) := by
      show Except.ok (pySliceTo items 3) = Except.ok (items.take 3)
      rw [pySliceTo_nonneg items (by omega : (0:ℤ) ≤ 3)]
      rfl
    rw [hsl, ok_bind, pure_ok]
    congr 1
    have hp3 : (items.take 3).map parse_coin_data = (recs.take 3).map some := by
      rw [List.map_take, List.map_take, hparse]
    exact filterMap_parse (all_take 3 hdict) hp3
  have hcoins : structuredCoins w.jsonParse 3 soup.scripts = Except.ok (recs.take 3) := by
    unfold structuredCoins
    rw [hs]
    unfold structuredLoop
    rw [hsc, ok_bind]
    unfold structuredLoop
    rw [List.nil_append]
  have hne : (recs.take 3).isEmpty = false := by
    cases h3 : recs.take 3 with
    | nil => rw [h3] at htk3; cases htk3
    | cons a l => rfl
  have hprim : primaryE w 3 = Except.ok (recs.take 3) := by
    unfold primaryE
    rw [hw, ok_bind, hcoins, ok_bind, pure_ok, hne]
    simp
  refine ⟨?_, htk3⟩
  unfold get_top_coins
  rw [hprim]

theorem get_top_coins_structured_five_limit_three_witness :
    get_top_coins c4World 3 = (List.replicate 5 noneRecord).take 3 ∧
    ((List.replicate 5 noneRecord : List CoinRecord).take 3).length = 3 :=
  get_top_coins_structured_five_limit_three c4World
    { scripts := [c4Script], table := Option.none } c4Script "J" c4Data
    c4Items (List.replicate 5 noneRecord) rfl rfl (by decide) (by decide)
    rfl rfl rfl (by decide) rfl

/-- Claim C5: when the primary fetch succeeds, the table fallback is
engaged precisely when the structured-data path produced an empty
non-erroring result: an empty structured result with a table whose parse
yields 4 valid rows and limit 10 gives exactly those 4 table-derived
records, and a non-empty structured result is returned as is, without the
table. -/
theorem get_top_coins_table_fallback (w : World) (soup : Soup)
    (hw : w.primary = Except.ok soup) :
    (∀ recs, structuredCoins w.jsonParse 10 soup.scripts = Except.ok [] →
      parse_table soup.table 10 = recs → recs.length = 4 →
      get_top_coins w 10 = recs ∧ (get_top_coins w 10).length = 4) ∧
    (∀ cs, structuredCoins w.jsonParse 10 soup.scripts = Except.ok cs → cs ≠ [] →
      get_top_coins w 10 = cs) := by
  constructor
  · intro recs hsc htab hlen
    have hprim : primaryE w 10 = Except.ok recs := by
      unfold primaryE
      rw [hw, ok_bind, hsc, ok_bind, pure_ok]
      rw [show (([] : List CoinRecord).isEmpty) = true from rfl]
      simp [htab]
    have hres : get_top_coins w 10 = recs := by
      unfold get_top_coins
      rw [hprim]
    exact ⟨hres, by rw [hres, hlen]⟩
  · intro cs hsc hne
    have hemp : cs.isEmpty = false := by
      cases cs with
      | nil => exact absurd rfl hne
      | cons a l => rfl
    have hprim : primaryE w 10 = Except.ok cs := by
      unfold primaryE
      rw [hw, ok_bind, hsc, ok_bind, pure_ok, hemp]
      simp
    unfold get_top_coins
    rw [hprim]

theorem get_top_coins_table_fallback_witness :
    get_top_coins c5World 10 = [c5Record 1, c5Record 2, c5Record 3, c5Record 4] ∧
    (get_top_coins c5World 10).length = 4 :=
  (get_top_coins_table_fallback c5World c5Soup rfl).1
    [c5Record 1, c5Record 2, c5Record 3, c5Record 4] rfl (by rfl) rfl

/-! ### Claim C10: uniform record schemas -/

theorem parse_coin_dataE_keys {item : PyVal} {r : CoinRecord}
    (h : parse_coin_dataE item = Except.ok r) : r.map Prod.fst = tenKeys := by
  unfold parse_coin_dataE at h
  obtain ⟨q1, _, h⟩ := exbind_ok h
  obtain ⟨quote, _, h⟩ := exbind_ok h
  obtain ⟨rankD, _, h⟩ := exbind_ok h
  obtain ⟨rank, _, h⟩ := exbind_ok h
  obtain ⟨nm, _, h⟩ := exbind_ok h
  obtain ⟨symbol, _, h⟩ := exbind_ok h
  obtain ⟨price, _, h⟩ := exbind_ok h
  obtain ⟨c1, _, h⟩ := exbind_ok h
  obtain ⟨c24, _, h⟩ := exbind_ok h
  obtain ⟨c7d, _, h⟩ := exbind_ok h
  obtain ⟨mcap, _, h⟩ := exbind_ok h
  obtain ⟨vol, _, h⟩ := exbind_ok h
  obtain ⟨supply, _, h⟩ := exbind_ok h
  rw [pure_ok] at h
  cases h
  rfl

theorem parse_coin_data_keys {item : PyVal} {r : CoinRecord}
    (h : parse_coin_data item = some r) : r.map Prod.fst = tenKeys := by
  unfold parse_coin_data at h
  cases he : parse_coin_dataE item with
  | ok r2 =>
    rw [he] at h
    cases h
    exact parse_coin_dataE_keys he
  | error e =>
    rw [he] at h
    cases h

theorem apiItemRecord_keys {item : PyVal} {r : CoinRecord}
    (h : apiItemRecord item = Except.ok r) : r.map Prod.fst = tenKeys := by
  unfold apiItemRecord at h
  obtain ⟨quotes, _, h⟩ := exbind_ok h
  obtain ⟨quote, _, h⟩ := exbind_ok h
  obtain ⟨rank, _, h⟩ := exbind_ok h
  obtain ⟨nm, _, h⟩ := exbind_ok h
  obtain ⟨symbol, _, h⟩ := exbind_ok h
  obtain ⟨price, _, h⟩ := exbind_ok h
  obtain ⟨c1, _, h⟩ := exbind_ok h
  obtain ⟨c24, _, h⟩ := exbind_ok h
  obtain ⟨c7d, _, h⟩ := exbind_ok h
  obtain ⟨mcap, _, h⟩ := exbind_ok h
  obtain ⟨vol, _, h⟩ := exbind_ok h
  obtain ⟨supply, _, h⟩ := exbind_ok h
  rw [pure_ok] at h
  cases h
  rfl

theorem rowRecord_keys {cells : List Cell} {r : CoinRecord}
    (h : rowRecord cells = some r) : r.map Prod.fst = eightKeys := by
  unfold rowRecord at h
  split at h
  · cases h
    rfl
  · cases h

theorem scriptCoins_keys {jp : String → Except PyErr PyVal} {limit : ℤ}
    {s : Script} {new : List CoinRecord}
    (h : scriptCoins jp limit s = Except.ok new) :
    ∀ r ∈ new, r.map Prod.fst = tenKeys := by
  by_cases hg : scriptGuard s = true
  · cases hm : reSearchNextData s.markup with
    | none =>
      rw [scriptCoins_eq_none jp limit s hg hm] at h
      cases h
      intro r hr
      cases hr
    | some captured =>
      rw [scriptCoins_eq_of jp limit s captured hg hm] at h
      obtain ⟨data, _, h⟩ := exbind_ok h
      obtain ⟨listings, _, h⟩ := exbind_ok h
      obtain ⟨items, _, h⟩ := exbind_ok h
      rw [pure_ok] at h
      cases h
      intro r hr
      obtain ⟨it, _, hit⟩ := List.mem_filterMap.mp hr
      by_cases hd : it.isDict = true
      · rw [if_pos hd] at hit
        exact parse_coin_data_keys hit
      · rw [if_neg hd] at hit
        cases hit
  · rw [scriptCoins_eq_noguard jp limit s hg] at h
    cases h
    intro r hr
    cases hr

theorem structuredLoop_keys (jp : String → Except PyErr PyVal) (limit : ℤ) :
    ∀ (scripts : List Script) (acc cs : List CoinRecord),
      structuredLoop jp limit scripts acc = Except.ok cs →
      (∀ r ∈ acc, r.map Prod.fst = tenKeys) →
      ∀ r ∈ cs, r.map Prod.fst = tenKeys := by
  intro scripts
  induction scripts with
  | nil =>
    intro acc cs h hacc
    unfold structuredLoop at h
    cases h
    exact hacc
  | cons s rest ih =>
    intro acc cs h hacc
    unfold structuredLoop at h
    obtain ⟨new, hnew, h⟩ := exbind_ok h
    refine ih (acc ++ new) cs h ?_
    intro r hr
    rcases List.mem_append.mp hr with h1 | h1
    · exact hacc r h1
    · exact scriptCoins_keys hnew r h1

theorem parse_table_keys (t : Option Table) (limit : ℤ) :
    ∀ r ∈ parse_table t limit, r.map Prod.fst = eightKeys := by
  cases t with
  | none =>
    intro r hr
    cases hr
  | some tb =>
    intro r hr
    unfold parse_table at hr
    obtain ⟨cells, _, hc⟩ := List.mem_filterMap.mp hr
    exact rowRecord_keys hc

theorem apiLoopX_keys :
    ∀ (items : List PyVal) (acc : List CoinRecord),
      (∀ r ∈ acc, r.map Prod.fst = tenKeys) →
      (∀ cs, apiLoopX items acc = Except.ok cs →
        ∀ r ∈ cs, r.map Prod.fst = tenKeys) ∧
      (∀ e cs, apiLoopX items acc = Except.error (e, cs) →
        ∀ r ∈ cs, r.map Prod.fst = tenKeys) := by
  intro items
  induction items with
  | nil =>
    intro acc hacc
    constructor
    · intro cs h
      unfold apiLoopX at h
      cases h
      exact hacc
    · intro e cs h
      unfold apiLoopX at h
      cases h
  | cons item rest ih =>
    intro acc hacc
    have hstep : apiLoopX (item :: rest) acc =
        (match apiItemRecord item with
         | Except.ok r => apiLoopX rest (acc ++ [r])
         | Except.error e => Except.error (e, acc)) := rfl
    cases hit : apiItemRecord item with
    | ok r0 =>
      have heq : apiLoopX (item :: rest) acc = apiLoopX rest (acc ++ [r0]) := by
        rw [hstep, hit]
      rw [heq]
      refine ih (acc ++ [r0]) ?_
      intro r hr
      rcases List.mem_append.mp hr with h1 | h1
      · exact hacc r h1
      · rw [List.mem_singleton] at h1
        subst h1
        exact apiItemRecord_keys hit
    | error e0 =>
      have heq : apiLoopX (item :: rest) acc = Except.error (e0, acc) := by
        rw [hstep, hit]
      rw [heq]
      constructor
      · intro cs h
        cases h
      · intro e cs h
        injection h with h2
        injection h2 with ha hb
        subst hb
        exact hacc

theorem exceptPart_keys {x : Except (PyErr × List CoinRecord) (List CoinRecord)}
    (hok : ∀ cs, x = Except.ok cs → ∀ r ∈ cs, r.map Prod.fst = tenKeys)
    (herr : ∀ e cs, x = Except.error (e, cs) → ∀ r ∈ cs, r.map Prod.fst = tenKeys) :
    ∀ r ∈ (match x with | Except.ok cs => cs | Except.error ec => ec.2),
      r.map Prod.fst = tenKeys := by
  cases x with
  | ok cs => exact hok cs rfl
  | error ec => exact herr ec.1 ec.2 rfl

theorem apiIterStage_keys (lv : PyVal) :
    (∀ cs, apiIterStage lv = Except.ok cs → ∀ r ∈ cs, r.map Prod.fst = tenKeys) ∧
    (∀ e cs, apiIterStage lv = Except.error (e, cs) →
      ∀ r ∈ cs, r.map Prod.fst = tenKeys) := by
  unfold apiIterStage
  cases hi : pyIter lv with
  | error e =>
    constructor
    · intro cs h
      cases h
    · intro e2 cs h
      injection h with h2
      injection h2 with _ hb
      subst hb
      intro r hr
      cases hr
  | ok items => exact apiLoopX_keys items [] (by intro r hr; cases hr)

theorem apiListStage_keys (d1 : PyVal) :
    (∀ cs, apiListStage d1 = Except.ok cs → ∀ r ∈ cs, r.map Prod.fst = tenKeys) ∧
    (∀ e cs, apiListStage d1 = Except.error (e, cs) →
      ∀ r ∈ cs, r.map Prod.fst = tenKeys) := by
  unfold apiListStage
  cases hc : pyGet d1 "cryptoCurrencyList" (PyVal.list []) with
  | error e =>
    constructor
    · intro cs h
      cases h
    · intro e2 cs h
      injection h with h2
      injection h2 with _ hb
      subst hb
      intro r hr
      cases hr
  | ok lv => exact apiIterStage_keys lv

theorem apiDataStage_keys (data : PyVal) :
    (∀ cs, apiDataStage data = Except.ok cs → ∀ r ∈ cs, r.map Prod.fst = tenKeys) ∧
    (∀ e cs, apiDataStage data = Except.error (e, cs) →
      ∀ r ∈ cs, r.map Prod.fst = tenKeys) := by
  unfold apiDataStage
  cases hd : pyGet data "data" (PyVal.dict []) with
  | error e =>
    constructor
    · intro cs h
      cases h
    · intro e2 cs h
      injection h with h2
      injection h2 with _ hb
      subst hb
      intro r hr
      cases hr
  | ok d1 => exact apiListStage_keys d1

theorem fetch_via_api_keys (w : World) (limit : ℤ) :
    ∀ r ∈ fetch_via_api w limit, r.map Prod.fst = tenKeys := by
  unfold fetch_via_api apiBodyX
  cases ha : w.apiResp limit with
  | error e =>
    intro r hr
    cases hr
  | ok data =>
    exact exceptPart_keys (apiDataStage_keys data).1 (apiDataStage_keys data).2

theorem get_top_coins_keys (w : World) (limit : ℤ) :
    (∀ r ∈ get_top_coins w limit, r.map Prod.fst = tenKeys) ∨
    (∀ r ∈ get_top_coins w limit, r.map Prod.fst = eightKeys) := by
  unfold get_top_coins
  cases hp : primaryE w limit with
  | error e =>
    left
    exact fetch_via_api_keys w limit
  | ok cs =>
    have hp2 := hp
    unfold primaryE at hp2
    obtain ⟨soup, hsoup, hp2⟩ := exbind_ok hp2
    obtain ⟨scs, hscs, hp2⟩ := exbind_ok hp2
    rw [pure_ok] at hp2
    cases hp2
    by_cases he : scs.isEmpty = true
    · right
      rw [if_pos he]
      exact parse_table_keys soup.table limit
    · left
      rw [if_neg he]
      exact structuredLoop_keys w.jsonParse limit soup.scripts [] scs hscs
        (by intro r hr; cases hr)

theorem csvRowsE_ok_of_keys (hdr : List String) :
    ∀ rs : List CoinRecord, (∀ r ∈ rs, r.map Prod.fst = hdr) →
      ∃ rows, csvRowsE hdr rs = Except.ok rows ∧ rows.length = rs.length := by
  intro rs
  induction rs with
  | nil =>
    intro _
    exact ⟨[], rfl, rfl⟩
  | cons r rest ih =>
    intro h
    have hr : r.map Prod.fst = hdr := h r (List.mem_cons_self r rest)
    have hall : r.all (fun kv => memStr kv.1 hdr) = true := by
      rw [List.all_eq_true]
      intro kv hkv
      have hmem : kv.1 ∈ hdr := by
        rw [← hr]
        exact List.mem_map_of_mem Prod.fst hkv
      unfold memStr
      rw [List.any_eq_true]
      exact ⟨kv.1, hmem, by simp⟩
    have hrowE : csvRowE hdr r =
        Except.ok (hdr.map fun k => (r.lookup k).getD PyVal.none) := by
      unfold csvRowE
      rw [if_pos hall]
    obtain ⟨rows, hrows, hlen⟩ := ih (fun x hx => h x (List.mem_cons_of_mem _ hx))
    refine ⟨(hdr.map fun k => (r.lookup k).getD PyVal.none) :: rows, ?_, by simp [hlen]⟩
    unfold csvRowsE
    rw [hrowE, ok_bind, hrows, ok_bind, pure_ok]

/-- Claim C10: structured-data and secondary-API records always carry
exactly the ten keys of the common schema, table-path records always
carry the same eight keys (never `change_1h` or `circulating_supply`),
one call's result draws from a single path so its records share one key
set, and therefore `save_to_csv` succeeds on any non-empty result with a
header equal to the first record's key list and one row per record. -/
theorem record_schema_uniform :
    (∀ (item : PyVal) (r : CoinRecord),
      parse_coin_data item = some r → r.map Prod.fst = tenKeys) ∧
    (∀ (item : PyVal) (r : CoinRecord),
      apiItemRecord item = Except.ok r → r.map Prod.fst = tenKeys) ∧
    (∀ (cells : List Cell) (r : CoinRecord),
      rowRecord cells = some r → r.map Prod.fst = eightKeys) ∧
    (∀ (w : World) (limit : ℤ),
      (∀ r ∈ get_top_coins w limit, r.map Prod.fst = tenKeys) ∨
      (∀ r ∈ get_top_coins w limit, r.map Prod.fst = eightKeys)) ∧
    (∀ (w : World) (limit : ℤ) (c : CoinRecord) (cs : List CoinRecord)
        (prev : Option CsvFile), get_top_coins w limit = c :: cs →
      ∃ f : CsvFile, save_to_csv (c :: cs) prev = Except.ok (some f) ∧
        f.header = c.map Prod.fst ∧ f.rows.length = (c :: cs).length) := by
  refine ⟨fun item r h => parse_coin_data_keys h,
          fun item r h => apiItemRecord_keys h,
          fun cells r h => rowRecord_keys h,
          get_top_coins_keys, ?_⟩
  intro w limit c cs prev hres
  have hdisj := get_top_coins_keys w limit
  rw [hres] at hdisj
  have hall : ∀ r ∈ c :: cs, r.map Prod.fst = c.map Prod.fst := by
    rcases hdisj with hK | hK
    · intro r hr
      rw [hK r hr, hK c (List.mem_cons_self c cs)]
    · intro r hr
      rw [hK r hr, hK c (List.mem_cons_self c cs)]
  obtain ⟨rows, hrows, hlen⟩ := csvRowsE_ok_of_keys (c.map Prod.fst) (c :: cs) hall
  refine ⟨{ header := c.map Prod.fst, rows := rows }, ?_, rfl, hlen⟩
  have hsave : save_to_csv (c :: cs) prev =
      (match csvRowsE (c.map Prod.fst) (c :: cs) with
       | Except.ok rows => Except.ok (some { header := c.map Prod.fst, rows := rows })
       | Except.error e => Except.error e) := rfl
  rw [hsave, hrows]

theorem record_schema_uniform_witness :
    ∃ f : CsvFile, save_to_csv [noneRecord] Option.none = Except.ok (some f) ∧
      f.header = noneRecord.map Prod.fst ∧
      f.rows.length = ([noneRecord] : List CoinRecord).length :=
  record_schema_uniform.2.2.2.2 singleItemWorld 1 noneRecord [] Option.none rfl

end CMCParser
